import Mathlib

/-!
Shallow embedding of the epicycle trajectory engine (`Circle` / `Epicycle`)
from `src/blend.py`.

Numpy 1-D float arrays are modelled as `List ℝ`; a value passed to a setter
that checks `isinstance(value, np.ndarray)` is modelled by `PyValue`, which
is either an `NDArray` (carrying its shape and flattened data) or some
non-array object.  Exceptions are modelled with `Except Err`; the `Err`
constructors record which kind of Python exception is raised and from where
(`invalidArgument` for the explicit `ValueError`s, `immutableFieldWrite` for
the read-only-property `AttributeError`s, `typeError` for an
argument-arity `TypeError`, `indexError` for list indexing failures,
`broadcastError` for numpy in-place broadcast failures, and `emptyReduce`
for `np.lcm.reduce` over an empty array).
-/

namespace MagicCircle

inductive Err where
  | invalidArgument
  | immutableFieldWrite
  | typeError
  | indexError
  | broadcastError
  | emptyReduce
deriving DecidableEq

structure NDArray where
  shape : List Nat
  data : List ℝ

inductive PyValue where
  | arr (a : NDArray)
  | nonArray

-- The check `isinstance(value, np.ndarray) and len(value.shape) == 1`.
def PyValue.isRank1 : PyValue → Bool
  | .arr a => a.shape.length == 1
  | .nonArray => false

structure Circle where
  radius : ℝ
  speed : ℝ
  angle_i : ℝ
  angles : List ℝ
  local_x : List ℝ
  local_y : List ℝ

-- `Circle.__init__(radius, speed, angle_i, angles)`: the derived arrays
-- `_local_x` and `_local_y` start empty; `_angles` is set to the `angles`
-- argument (in `Epicycle.add_circle` this is the epicycle's current time
-- array).
def Circle.make (radius speed angle_i : ℝ) (angles : List ℝ) : Circle :=
  { radius := radius, speed := speed, angle_i := angle_i,
    angles := angles, local_x := [], local_y := [] }

-- `local_trajectory`: `np.stack([self._local_x, self._local_y])`.
def Circle.local_trajectory (c : Circle) : List (List ℝ) :=
  [c.local_x, c.local_y]

-- The `angles` property setter raises
-- `AttributeError("Cannot set angles directly. ...")`.
def Circle.set_angles (_ : Circle) (_ : PyValue) : Except Err Unit :=
  .error .immutableFieldWrite

-- The `local_x` property setter raises the analogous `AttributeError`.
def Circle.set_local_x (_ : Circle) (_ : PyValue) : Except Err Unit :=
  .error .immutableFieldWrite

-- The `local_y` property setter raises the analogous `AttributeError`.
def Circle.set_local_y (_ : Circle) (_ : PyValue) : Except Err Unit :=
  .error .immutableFieldWrite

-- The body of `Circle.update_arrays` on a rank-1 array `t`:
--   self._angles = time * self.speed + self.angle_i
--   self._local_x = self.radius * np.cos(self._angles)
--   self._local_y = self.radius * np.sin(self._angles)
noncomputable def Circle.updateCore (c : Circle) (t : List ℝ) : Circle :=
  let θ := t.map fun τ => τ * c.speed + c.angle_i
  { c with angles := θ,
           local_x := θ.map fun α => c.radius * Real.cos α,
           local_y := θ.map fun α => c.radius * Real.sin α }

-- `Circle.update_arrays(time)`: requires a numpy array of rank 1, else
-- raises `ValueError`.
noncomputable def Circle.update_arrays (c : Circle) (time : PyValue) :
    Except Err Circle :=
  match time with
  | .arr a =>
      if a.shape.length = 1 then .ok (Circle.updateCore c a.data)
      else .error .invalidArgument
  | .nonArray => .error .invalidArgument

structure Epicycle where
  circles : List Circle
  time : List ℝ
  x : List ℝ
  y : List ℝ
  period_changed : Bool
  trajectory_changed : Bool
  period : ℝ
  trajectory : List (List ℝ)

-- `Epicycle.__init__`: empty circle list, empty arrays, both dirty flags
-- set, cached period 0.0, cached trajectory an empty array.
def Epicycle.init : Epicycle :=
  { circles := [], time := [], x := [], y := [],
    period_changed := true, trajectory_changed := true,
    period := 0, trajectory := [] }

def zerosLike (t : List ℝ) : List ℝ := t.map fun _ => 0

def onesLike (t : List ℝ) : List ℝ := t.map fun _ => 1

-- Numpy in-place `x += l` for 1-D arrays: succeeds when the shapes match,
-- or when `l` has length 1 (broadcast); otherwise raises a broadcast
-- `ValueError`.
def npAddInPlace (x l : List ℝ) : Except Err (List ℝ) :=
  if l.length = x.length then .ok (List.zipWith (· + ·) x l)
  else if l.length = 1 then .ok (x.map fun a => a + l.headI)
  else .error .broadcastError

-- The loop body of `Epicycle._update_xy`:
--   for circle in self._circles:
--       self._x += circle.local_x
--       self._y += circle.local_y
def addPairs (p : List ℝ × List ℝ) : List Circle → Except Err (List ℝ × List ℝ)
  | [] => .ok p
  | c :: cs =>
      match npAddInPlace p.1 c.local_x with
      | .error err => .error err
      | .ok px =>
          match npAddInPlace p.2 c.local_y with
          | .error err => .error err
          | .ok py => addPairs (px, py) cs

-- `Epicycle._update_xy`: re-zeroes `_x`/`_y` to the time length, adds every
-- circle's local arrays elementwise, and marks the trajectory cache dirty.
def Epicycle.update_xy (e : Epicycle) : Except Err Epicycle :=
  match addPairs (zerosLike e.time, zerosLike e.time) e.circles with
  | .error err => .error err
  | .ok p => .ok { e with x := p.1, y := p.2, trajectory_changed := true }

-- The `time` property setter: requires a rank-1 numpy array (else
-- `ValueError`); stores it, zero-fills `_x`/`_y`, refreshes every circle
-- with `update_arrays(self._time)` (which always takes its rank-1 branch
-- here), then calls `_update_xy`.
noncomputable def Epicycle.timeSet (e : Epicycle) (value : PyValue) :
    Except Err Epicycle :=
  match value with
  | .arr a =>
      if a.shape.length = 1 then
        Epicycle.update_xy
          { e with time := a.data,
                   x := zerosLike a.data, y := zerosLike a.data,
                   circles := e.circles.map fun c => Circle.updateCore c a.data }
      else .error .invalidArgument
  | .nonArray => .error .invalidArgument

-- The `trajectory` property getter: when the dirty flag is set, re-stacks
-- `[self._x, self._y, np.zeros_like(self._time), np.ones_like(self._time)]`
-- into the cache and clears the flag; otherwise returns the cache.
def Epicycle.trajectoryRead (e : Epicycle) : List (List ℝ) × Epicycle :=
  if e.trajectory_changed then
    ([e.x, e.y, zerosLike e.time, onesLike e.time],
     { e with trajectory := [e.x, e.y, zerosLike e.time, onesLike e.time],
              trajectory_changed := false })
  else (e.trajectory, e)

-- The `trajectory` property setter is declared as `def trajectory(self)`
-- with no value parameter, so the assignment call `e.trajectory = v`
-- invokes `fset(e, v)` and fails with an arity `TypeError` before the
-- `AttributeError` in the body can be reached.
def Epicycle.trajectorySet (_ : Epicycle) (_ : PyValue) : Except Err Unit :=
  .error .typeError

-- `Epicycle.add_circle`: appends `Circle(radius, speed, angle_i, self._time)`
-- and marks both caches dirty.  It does not re-aggregate `_x`/`_y`.
def Epicycle.add_circle (e : Epicycle) (radius speed angle_i : ℝ) : Epicycle :=
  { e with circles := e.circles ++ [Circle.make radius speed angle_i e.time],
           period_changed := true, trajectory_changed := true }

-- The loop `for i in range(len(radius)): self.add_circle(radius[i],
-- speed[i], angle_i[i])`, with list indexing that can raise `IndexError`.
def addLoop (radius speed angle_i : List ℝ) :
    Epicycle → List Nat → Except Err Epicycle
  | e, [] => .ok e
  | e, i :: rest =>
      match radius[i]?, speed[i]?, angle_i[i]? with
      | some r, some s, some a =>
          addLoop radius speed angle_i (e.add_circle r s a) rest
      | _, _, _ => .error .indexError

-- `Epicycle.add_circles`: the guard is the Python chained comparison
-- `len(radius) != len(speed) != len(angle_i)`, i.e. it raises only when
-- BOTH adjacent pairs of lengths differ; then the add loop, then one
-- `_update_xy` aggregation pass.
noncomputable def Epicycle.add_circles (e : Epicycle)
    (radius speed angle_i : List ℝ) : Except Err Epicycle :=
  if radius.length ≠ speed.length ∧ speed.length ≠ angle_i.length then
    .error .invalidArgument
  else
    match addLoop radius speed angle_i e (List.range radius.length) with
    | .error err => .error err
    | .ok e' => Epicycle.update_xy e'

-- `np.array(speeds, dtype=int)` truncates each float toward zero.
noncomputable def npTrunc (x : ℝ) : ℤ := if 0 ≤ x then ⌊x⌋ else ⌈x⌉

-- `np.lcm.reduce`: the first element is the initial accumulator (so a
-- singleton reduces to itself), later elements fold with `np.lcm`, which
-- returns the nonnegative lcm of absolute values.
def lcmFold (h : ℤ) (t : List ℤ) : ℤ :=
  t.foldl (fun a b => (Int.lcm a b : ℤ)) h

def npLcmReduce : List ℤ → Except Err ℤ
  | [] => .error .emptyReduce
  | h :: t => .ok (lcmFold h t)

-- Total value of the reduce on a nonempty list (0 on the empty list, which
-- never occurs where this is used).
def lcmVal : List ℤ → ℤ
  | [] => 0
  | h :: t => lcmFold h t

noncomputable def Epicycle.speedsInt (e : Epicycle) : List ℤ :=
  e.circles.map fun c => npTrunc c.speed

-- The `period` property getter: when the dirty flag is set, recomputes
-- `2 * np.pi / np.lcm.reduce(np.array(speeds, dtype=int))` (raising on an
-- empty circle list) and caches it; otherwise returns the cache.
noncomputable def Epicycle.periodRead (e : Epicycle) :
    Except Err (ℝ × Epicycle) :=
  if e.period_changed then
    match npLcmReduce e.speedsInt with
    | .error err => .error err
    | .ok l =>
        .ok (2 * Real.pi / (l : ℝ),
             { e with period := 2 * Real.pi / (l : ℝ),
                      period_changed := false })
  else .ok (e.period, e)

-- Specification-side per-sample sums over the circle parameters
-- (radius·cos(speed·t + angle_i) and the sine analogue).
noncomputable def sumX (cs : List Circle) (τ : ℝ) : ℝ :=
  (cs.map fun c => c.radius * Real.cos (c.speed * τ + c.angle_i)).sum

noncomputable def sumY (cs : List Circle) (τ : ℝ) : ℝ :=
  (cs.map fun c => c.radius * Real.sin (c.speed * τ + c.angle_i)).sum

-- Specification-side value of the period of a circle list.
noncomputable def periodFormula (cs : List Circle) : ℝ :=
  2 * Real.pi / ((lcmVal (cs.map fun c => npTrunc c.speed) : ℤ) : ℝ)

-- An epicycle built by adding a list of (radius, speed, angle_i) triples
-- one at a time to a fresh `Epicycle`.
def buildE (ps : List (ℝ × ℝ × ℝ)) : Epicycle :=
  ps.foldl (fun e p => e.add_circle p.1 p.2.1 p.2.2) Epicycle.init

-- The states reachable through the public operations.
inductive Reachable : Epicycle → Prop where
  | init : Reachable Epicycle.init
  | add (e : Epicycle) (r s a : ℝ) :
      Reachable e → Reachable (e.add_circle r s a)
  | adds (e : Epicycle) (r s a : List ℝ) (e' : Epicycle) :
      Reachable e → e.add_circles r s a = .ok e' → Reachable e'
  | setTime (e : Epicycle) (v : PyValue) (e' : Epicycle) :
      Reachable e → e.timeSet v = .ok e' → Reachable e'
  | readTraj (e : Epicycle) :
      Reachable e → Reachable e.trajectoryRead.2
  | readPeriod (e : Epicycle) (p : ℝ) (e' : Epicycle) :
      Reachable e → e.periodRead = .ok (p, e') → Reachable e'

-- Cache-coherence of the period fields.
def periodOK (e : Epicycle) : Prop :=
  e.period_changed = false →
    e.circles ≠ [] ∧ e.period = periodFormula e.circles

-- The concrete epicycle of the C2 counterexample: one unit circle, time
-- domain set to the single sample 0.
noncomputable def cexE2 : Epicycle :=
  ((Epicycle.add_circle Epicycle.init 1 1 0).timeSet
      (.arr ⟨[1], [0]⟩)).toOption.getD Epicycle.init

/-! Helper lemmas. -/

theorem zipWith_add_map (t : List ℝ) (f g : ℝ → ℝ) :
    List.zipWith (· + ·) (t.map f) (t.map g) = t.map fun τ => f τ + g τ := by
  induction t with
  | nil => rfl
  | cons a t ih => simp [ih]

theorem npAddInPlace_map (t : List ℝ) (f g : ℝ → ℝ) :
    npAddInPlace (t.map f) (t.map g) = .ok (t.map fun τ => f τ + g τ) := by
  simp [npAddInPlace, zipWith_add_map]

theorem npAddInPlace_nil_error (x : List ℝ) (hx : x ≠ []) :
    npAddInPlace x [] = .error .broadcastError := by
  unfold npAddInPlace
  rw [if_neg (by simp [eq_comm, List.length_eq_zero, hx]), if_neg (by simp)]

theorem addPairs_map (t : List ℝ) (F G : Circle → ℝ → ℝ) (cs : List Circle)
    (f g : ℝ → ℝ) :
    (∀ c ∈ cs, c.local_x = t.map (F c) ∧ c.local_y = t.map (G c)) →
    addPairs (t.map f, t.map g) cs =
      .ok (t.map fun τ => f τ + (cs.map fun c => F c τ).sum,
           t.map fun τ => g τ + (cs.map fun c => G c τ).sum) := by
  induction cs generalizing f g with
  | nil => intro _; simp [addPairs]
  | cons c cs ih =>
    intro h
    obtain ⟨hx, hy⟩ := h c (List.mem_cons_self _ _)
    have hrest := fun c' hc' => h c' (List.mem_cons_of_mem _ hc')
    simp only [addPairs, hx, hy, npAddInPlace_map]
    rw [ih (fun τ => f τ + F c τ) (fun τ => g τ + G c τ) hrest]
    simp only [Except.ok.injEq, Prod.mk.injEq, List.map_cons, List.sum_cons]
    constructor <;> exact List.map_congr_left fun τ _ => by ring

theorem addPairs_append (p : List ℝ × List ℝ) (l₁ l₂ : List Circle) :
    addPairs p (l₁ ++ l₂) =
      match addPairs p l₁ with
      | .error err => .error err
      | .ok q => addPairs q l₂ := by
  induction l₁ generalizing p with
  | nil => simp [addPairs]
  | cons c l ih =>
    simp only [List.cons_append, addPairs]
    cases h1 : npAddInPlace p.1 c.local_x with
    | error err => rfl
    | ok px =>
      cases h2 : npAddInPlace p.2 c.local_y with
      | error err => rfl
      | ok py => exact ih (px, py)

theorem updateCore_local_x (c : Circle) (t : List ℝ) :
    (Circle.updateCore c t).local_x =
      t.map fun τ => c.radius * Real.cos (τ * c.speed + c.angle_i) := by
  simp [Circle.updateCore, List.map_map, Function.comp]

theorem updateCore_local_y (c : Circle) (t : List ℝ) :
    (Circle.updateCore c t).local_y =
      t.map fun τ => c.radius * Real.sin (τ * c.speed + c.angle_i) := by
  simp [Circle.updateCore, List.map_map, Function.comp]

theorem updateCore_mem_local (cs : List Circle) (t : List ℝ) :
    ∀ c' ∈ cs.map fun c => Circle.updateCore c t,
      c'.local_x = t.map (fun τ => c'.radius * Real.cos (τ * c'.speed + c'.angle_i)) ∧
      c'.local_y = t.map (fun τ => c'.radius * Real.sin (τ * c'.speed + c'.angle_i)) := by
  intro c' hc'
  obtain ⟨c, hc, rfl⟩ := List.mem_map.1 hc'
  exact ⟨updateCore_local_x c t, updateCore_local_y c t⟩

theorem map_updateCore_sumX (cs : List Circle) (t : List ℝ) (τ : ℝ) :
    ((cs.map fun c => Circle.updateCore c t).map
        fun c' => c'.radius * Real.cos (τ * c'.speed + c'.angle_i)).sum
      = sumX cs τ := by
  unfold sumX
  rw [List.map_map]
  congr 1
  apply List.map_congr_left
  intro c _
  show c.radius * Real.cos (τ * c.speed + c.angle_i)
      = c.radius * Real.cos (c.speed * τ + c.angle_i)
  rw [mul_comm τ c.speed]

theorem map_updateCore_sumY (cs : List Circle) (t : List ℝ) (τ : ℝ) :
    ((cs.map fun c => Circle.updateCore c t).map
        fun c' => c'.radius * Real.sin (τ * c'.speed + c'.angle_i)).sum
      = sumY cs τ := by
  unfold sumY
  rw [List.map_map]
  congr 1
  apply List.map_congr_left
  intro c _
  show c.radius * Real.sin (τ * c.speed + c.angle_i)
      = c.radius * Real.sin (c.speed * τ + c.angle_i)
  rw [mul_comm τ c.speed]

theorem timeSet_ok (e : Epicycle) (a : NDArray) (h : a.shape.length = 1) :
    e.timeSet (.arr a) = .ok
      { e with time := a.data,
               circles := e.circles.map fun c => Circle.updateCore c a.data,
               x := a.data.map fun τ => sumX e.circles τ,
               y := a.data.map fun τ => sumY e.circles τ,
               trajectory_changed := true } := by
  simp only [Epicycle.timeSet, if_pos h, Epicycle.update_xy, zerosLike]
  rw [addPairs_map a.data
        (fun c' τ => c'.radius * Real.cos (τ * c'.speed + c'.angle_i))
        (fun c' τ => c'.radius * Real.sin (τ * c'.speed + c'.angle_i))
        (e.circles.map fun c => Circle.updateCore c a.data)
        (fun _ => 0) (fun _ => 0)
        (updateCore_mem_local e.circles a.data)]
  simp only [Except.ok.injEq, Epicycle.mk.injEq]
  refine ⟨trivial, trivial, ?_, ?_, trivial, trivial, trivial, trivial⟩
  · exact List.map_congr_left fun τ _ => by rw [zero_add, map_updateCore_sumX]
  · exact List.map_congr_left fun τ _ => by rw [zero_add, map_updateCore_sumY]

theorem trajectoryRead_dirty (e : Epicycle) (h : e.trajectory_changed = true) :
    e.trajectoryRead = ([e.x, e.y, zerosLike e.time, onesLike e.time],
      { e with trajectory := [e.x, e.y, zerosLike e.time, onesLike e.time],
               trajectory_changed := false }) := by
  simp [Epicycle.trajectoryRead, h]

theorem foldl_add_circle (l : List (ℝ × ℝ × ℝ)) (e : Epicycle) :
    (l.foldl (fun acc p => acc.add_circle p.1 p.2.1 p.2.2) e).circles
        = e.circles ++ l.map (fun p => Circle.make p.1 p.2.1 p.2.2 e.time) ∧
    (l.foldl (fun acc p => acc.add_circle p.1 p.2.1 p.2.2) e).time = e.time := by
  induction l generalizing e with
  | nil => simp
  | cons p l ih =>
    simp only [List.foldl_cons, List.map_cons]
    obtain ⟨h1, h2⟩ := ih (e.add_circle p.1 p.2.1 p.2.2)
    refine ⟨?_, h2⟩
    rw [h1]
    simp [Epicycle.add_circle]

theorem foldl_add_circle_flag (l : List (ℝ × ℝ × ℝ)) (e : Epicycle) (h : l ≠ []) :
    (l.foldl (fun acc p => acc.add_circle p.1 p.2.1 p.2.2) e).period_changed
      = true := by
  induction l generalizing e with
  | nil => exact absurd rfl h
  | cons p l ih =>
    rcases eq_or_ne l [] with rfl | hne
    · rfl
    · exact ih (e.add_circle p.1 p.2.1 p.2.2) hne

theorem getElem?_eq_some_getD (l : List ℝ) (i : Nat) (h : i < l.length) :
    l[i]? = some (l.getD i 0) := by
  simp [List.getD_eq_getElem?_getD, List.getElem?_eq_getElem h]

theorem getD_map_zero (l : List ℝ) (f : ℝ → ℝ) (i : Nat) (hi : i < l.length) :
    (l.map f).getD i 0 = f l[i] := by
  rw [List.getD_eq_getElem?_getD, List.getElem?_map, List.getElem?_eq_getElem hi]
  rfl

theorem addLoop_ok (radius speed angle_i : List ℝ) (e : Epicycle)
    (idx : List Nat) :
    (∀ i ∈ idx, i < radius.length ∧ i < speed.length ∧ i < angle_i.length) →
    addLoop radius speed angle_i e idx = .ok (idx.foldl
      (fun acc i =>
        acc.add_circle (radius.getD i 0) (speed.getD i 0) (angle_i.getD i 0))
      e) := by
  induction idx generalizing e with
  | nil => intro _; rfl
  | cons i rest ih =>
    intro h
    obtain ⟨h1, h2, h3⟩ := h i (List.mem_cons_self _ _)
    simp only [addLoop, getElem?_eq_some_getD radius i h1,
               getElem?_eq_some_getD speed i h2,
               getElem?_eq_some_getD angle_i i h3, List.foldl_cons]
    exact ih _ fun j hj => h j (List.mem_cons_of_mem _ hj)

theorem buildE_circles (ps : List (ℝ × ℝ × ℝ)) :
    (buildE ps).circles = ps.map fun p => Circle.make p.1 p.2.1 p.2.2 [] := by
  have := (foldl_add_circle ps Epicycle.init).1
  simpa [buildE, Epicycle.init] using this

theorem sumX_append_make (cs : List Circle) (r s ai : ℝ) (t0 : List ℝ) (τ : ℝ) :
    sumX (cs ++ [Circle.make r s ai t0]) τ = sumX cs τ + r * Real.cos (s * τ + ai) := by
  simp [sumX, Circle.make]

theorem sumY_append_make (cs : List Circle) (r s ai : ℝ) (t0 : List ℝ) (τ : ℝ) :
    sumY (cs ++ [Circle.make r s ai t0]) τ = sumY cs τ + r * Real.sin (s * τ + ai) := by
  simp [sumY, Circle.make]

theorem sum_getD_updateCore_x (cs : List Circle) (t : List ℝ) (i : Nat)
    (hi : i < t.length) :
    ((cs.map fun c => Circle.updateCore c t).map
        fun c' => c'.local_x.getD i 0).sum = sumX cs t[i] := by
  rw [← map_updateCore_sumX cs t t[i]]
  congr 1
  apply List.map_congr_left
  intro c' hc'
  obtain ⟨c, hc, rfl⟩ := List.mem_map.1 hc'
  rw [updateCore_local_x, getD_map_zero _ _ _ hi]
  rfl

theorem sum_getD_updateCore_y (cs : List Circle) (t : List ℝ) (i : Nat)
    (hi : i < t.length) :
    ((cs.map fun c => Circle.updateCore c t).map
        fun c' => c'.local_y.getD i 0).sum = sumY cs t[i] := by
  rw [← map_updateCore_sumY cs t t[i]]
  congr 1
  apply List.map_congr_left
  intro c' hc'
  obtain ⟨c, hc, rfl⟩ := List.mem_map.1 hc'
  rw [updateCore_local_y, getD_map_zero _ _ _ hi]
  rfl

theorem update_xy_fields (e e' : Epicycle) (h : e.update_xy = .ok e') :
    e'.circles = e.circles ∧ e'.period_changed = e.period_changed ∧
    e'.period = e.period ∧ e'.time = e.time := by
  unfold Epicycle.update_xy at h
  cases hp : addPairs (zerosLike e.time, zerosLike e.time) e.circles with
  | error err => rw [hp] at h; cases h
  | ok p => rw [hp] at h; cases h; exact ⟨rfl, rfl, rfl, rfl⟩

theorem trajectoryRead_snd_fields (e : Epicycle) :
    e.trajectoryRead.2.circles = e.circles ∧
    e.trajectoryRead.2.period_changed = e.period_changed ∧
    e.trajectoryRead.2.period = e.period := by
  unfold Epicycle.trajectoryRead
  split <;> exact ⟨rfl, rfl, rfl⟩

/-! Claim theorems. -/

/-- C1: for every list of circle parameter triples added to a fresh
Epicycle and every rank-1 time domain assigned afterwards, the trajectory
read is the 4×N matrix whose row 0 at sample `τ` is the sum over the
circles of `radius * cos(speed * τ + angle_i)`, row 1 the sine analogue,
and rows 2 and 3 constant 0 and 1. -/
theorem trajectory_rows_after_build (ps : List (ℝ × ℝ × ℝ)) (a : NDArray)
    (h : a.shape.length = 1) :
    ∃ e', (buildE ps).timeSet (.arr a) = .ok e' ∧
      e'.trajectoryRead.1 =
        [a.data.map (fun τ => (ps.map fun p => p.1 * Real.cos (p.2.1 * τ + p.2.2)).sum),
         a.data.map (fun τ => (ps.map fun p => p.1 * Real.sin (p.2.1 * τ + p.2.2)).sum),
         a.data.map fun _ => 0,
         a.data.map fun _ => 1] := by
  refine ⟨_, timeSet_ok (buildE ps) a h, ?_⟩
  rw [trajectoryRead_dirty _ rfl]
  simp only [sumX, sumY, buildE_circles, List.map_map, zerosLike, onesLike]
  rfl

/-- C1 witness: one circle (radius 1, speed 2, phase 0) and the one-sample
time domain [0] give trajectory rows [[1], [0], [0], [1]]. -/
theorem trajectory_rows_after_build_witness :
    ∃ e', (buildE [((1:ℝ), (2:ℝ), (0:ℝ))]).timeSet (.arr ⟨[1], [0]⟩) = .ok e' ∧
      e'.trajectoryRead.1 = [[(1:ℝ)], [0], [0], [1]] := by
  obtain ⟨e', h1, h2⟩ :=
    trajectory_rows_after_build [((1:ℝ), (2:ℝ), (0:ℝ))] ⟨[1], [0]⟩ (by decide)
  refine ⟨e', h1, ?_⟩
  rw [h2]
  norm_num

/-- C2 (amended): `add_circle` marks the trajectory cache dirty but does
not re-aggregate the combined x/y sums, so the next trajectory read
re-stacks the stale sums; the new circle's contribution appears after the
next time assignment, whose trajectory read includes the new circle's
cosine and sine terms. -/
theorem add_circle_then_time_includes (e : Epicycle) (r s ai : ℝ) (a : NDArray)
    (h : a.shape.length = 1) :
    ∃ e', (e.add_circle r s ai).timeSet (.arr a) = .ok e' ∧
      e'.trajectoryRead.1 =
        [a.data.map (fun τ => sumX e.circles τ + r * Real.cos (s * τ + ai)),
         a.data.map (fun τ => sumY e.circles τ + r * Real.sin (s * τ + ai)),
         a.data.map fun _ => 0, a.data.map fun _ => 1] := by
  refine ⟨_, timeSet_ok _ a h, ?_⟩
  rw [trajectoryRead_dirty _ rfl]
  simp [Epicycle.add_circle, sumX_append_make, sumY_append_make,
        zerosLike, onesLike]

/-- C2 witness for the amended claim: adding a unit circle to a fresh
Epicycle and then assigning time [0] yields trajectory rows
[[1], [0], [0], [1]], which include the new circle's contribution. -/
theorem add_circle_then_time_includes_witness :
    ∃ e', (Epicycle.init.add_circle 1 1 0).timeSet (.arr ⟨[1], [0]⟩) = .ok e' ∧
      e'.trajectoryRead.1 = [[(1:ℝ)], [0], [0], [1]] := by
  obtain ⟨e', h1, h2⟩ :=
    add_circle_then_time_includes Epicycle.init 1 1 0 ⟨[1], [0]⟩ (by decide)
  refine ⟨e', h1, ?_⟩
  rw [h2]
  norm_num [sumX, sumY, Epicycle.init]

theorem cexE2_eq : cexE2 =
    { circles := [Circle.updateCore (Circle.make 1 1 0 []) [0]],
      time := [0], x := [sumX [Circle.make 1 1 0 []] 0],
      y := [sumY [Circle.make 1 1 0 []] 0],
      period_changed := true, trajectory_changed := true,
      period := 0, trajectory := [] } := by
  unfold cexE2
  rw [timeSet_ok _ _ (by decide)]
  rfl

/-- C2 counterexample: on an Epicycle holding one unit circle with time
domain [0] (trajectory row 0 = [1]), calling `add_circle` with another
unit circle and then reading `trajectory` still returns row 0 = [1],
although the sum of all circles' contributions at the only sample is 2:
the read does not reflect the newly added circle. -/
theorem add_circle_stale_read_cex :
    (cexE2.add_circle 1 1 0).trajectoryRead.1.head? = some [(1:ℝ)] ∧
    (cexE2.add_circle 1 1 0).time.map
        (sumX (cexE2.add_circle 1 1 0).circles) = [(2:ℝ)] ∧
    some [(1:ℝ)] ≠ some [(2:ℝ)] := by
  refine ⟨?_, ?_, by norm_num⟩
  · rw [cexE2_eq, trajectoryRead_dirty _ rfl]
    norm_num [sumX, Circle.make, Epicycle.add_circle]
  · rw [cexE2_eq]
    norm_num [Epicycle.add_circle, Circle.updateCore, sumX, Circle.make]

/-- C3: assigning `time` a rank-1 array stores the domain, refreshes every
circle, and re-aggregates x[i] and y[i] as the sums of the circles'
local_x[i] / local_y[i]; a length-0 domain yields empty trajectory rows
without error; any non-rank-1 value is rejected with InvalidArgument. -/
theorem time_setter_spec (e : Epicycle) (a : NDArray) (h : a.shape.length = 1) :
    (∃ e', e.timeSet (.arr a) = .ok e' ∧
      e'.time = a.data ∧
      e'.circles = (e.circles.map fun c => Circle.updateCore c a.data) ∧
      e'.x = a.data.map (fun τ => sumX e.circles τ) ∧
      e'.y = a.data.map (fun τ => sumY e.circles τ) ∧
      (∀ i, i < a.data.length →
        e'.x[i]? = some ((e'.circles.map fun c => c.local_x.getD i 0).sum) ∧
        e'.y[i]? = some ((e'.circles.map fun c => c.local_y.getD i 0).sum)) ∧
      (a.data = [] → e'.trajectoryRead.1 = [[], [], [], []])) ∧
    (∀ v : PyValue, v.isRank1 = false → e.timeSet v = .error .invalidArgument) := by
  constructor
  · refine ⟨_, timeSet_ok e a h, rfl, rfl, rfl, rfl, ?_, ?_⟩
    · intro i hi
      constructor
      · show (a.data.map fun τ => sumX e.circles τ)[i]? = _
        rw [List.getElem?_map, List.getElem?_eq_getElem hi]
        exact congrArg some (sum_getD_updateCore_x e.circles a.data i hi).symm
      · show (a.data.map fun τ => sumY e.circles τ)[i]? = _
        rw [List.getElem?_map, List.getElem?_eq_getElem hi]
        exact congrArg some (sum_getD_updateCore_y e.circles a.data i hi).symm
    · intro hnil
      rw [trajectoryRead_dirty _ rfl]
      simp [hnil, zerosLike, onesLike]
  · intro v hv
    cases v with
    | nonArray => rfl
    | arr a' =>
      have hne : ¬ a'.shape.length = 1 := by
        simpa [PyValue.isRank1] using hv
      simp [Epicycle.timeSet, hne]

/-- C3 witness: assigning the rank-1 array [0] succeeds and stores it as
the time domain; assigning a 2×2 array fails with InvalidArgument. -/
theorem time_setter_spec_witness :
    (∃ e', Epicycle.init.timeSet (.arr ⟨[1], [0]⟩) = .ok e' ∧ e'.time = [(0:ℝ)]) ∧
    Epicycle.init.timeSet (.arr ⟨[2, 2], [0, 0, 0, 0]⟩) = .error .invalidArgument := by
  obtain ⟨⟨e', h1, h2, _⟩, hneg⟩ := time_setter_spec Epicycle.init ⟨[1], [0]⟩ (by decide)
  exact ⟨⟨e', h1, h2⟩, hneg (.arr ⟨[2, 2], [0, 0, 0, 0]⟩) rfl⟩

/-- C4 (code bug): the guard of `add_circles` is the Python chained
comparison, which only raises when both adjacent length pairs differ.
With lengths (2, 3, 3) — a pairwise mismatch the claim says must fail —
no error is raised and two circles are appended; with lengths (3, 2, 3)
(both adjacent pairs differ) it does raise InvalidArgument before
touching the circle list. -/
theorem add_circles_chained_check :
    (Epicycle.init.add_circles [1, 2] [1, 2, 3] [0, 0, 0]).map
        (fun e => e.circles.length) = .ok 2 ∧
    Epicycle.init.add_circles [1, 2, 3] [1, 2] [0, 0, 0]
        = .error .invalidArgument := by
  exact ⟨rfl, rfl⟩

theorem foldl_add_circle_range (r s an : List ℝ) (e : Epicycle)
    (idx : List Nat) :
    (idx.foldl (fun acc i =>
        acc.add_circle (r.getD i 0) (s.getD i 0) (an.getD i 0)) e).circles
      = e.circles ++ idx.map (fun i =>
          Circle.make (r.getD i 0) (s.getD i 0) (an.getD i 0) e.time) ∧
    (idx.foldl (fun acc i =>
        acc.add_circle (r.getD i 0) (s.getD i 0) (an.getD i 0)) e).time
      = e.time := by
  induction idx generalizing e with
  | nil => simp
  | cons i rest ih =>
    simp only [List.foldl_cons, List.map_cons]
    obtain ⟨hh1, hh2⟩ := ih (e.add_circle (r.getD i 0) (s.getD i 0) (an.getD i 0))
    refine ⟨?_, hh2⟩
    rw [hh1]
    simp [Epicycle.add_circle]

/-- C5: on an Epicycle whose time domain is a non-empty array, a
subsequent `add_circles` call with equal-length non-empty lists passes
the length guard and the add loop but fails with a broadcast shape error
in the final aggregation pass, because each newly constructed circle
receives the current time array as its `angles` and has empty
local_x/local_y until the time domain is reassigned. -/
theorem add_circles_after_time_broadcast (e e' : Epicycle) (a : NDArray)
    (h1 : a.shape.length = 1) (h2 : a.data ≠ [])
    (r s an : List ℝ) (hr : r.length = s.length) (hs : s.length = an.length)
    (hne : r ≠ []) (ht : e.timeSet (.arr a) = .ok e') :
    e'.add_circles r s an = .error .broadcastError ∧
    (∀ rr ss aa : ℝ, (e'.add_circle rr ss aa).circles
        = e'.circles ++ [Circle.make rr ss aa a.data]) ∧
    (∀ rr ss aa : ℝ, (Circle.make rr ss aa a.data).angles = a.data ∧
      (Circle.make rr ss aa a.data).local_x = [] ∧
      (Circle.make rr ss aa a.data).local_y = []) := by
  rw [timeSet_ok e a h1] at ht
  have hinj := (Except.ok.injEq _ _).mp ht
  have he'c : e'.circles = e.circles.map fun c => Circle.updateCore c a.data := by
    rw [← hinj]
  have he't : e'.time = a.data := by
    rw [← hinj]
  refine ⟨?_, fun rr ss aa => by simp [Epicycle.add_circle, he't],
          fun rr ss aa => ⟨rfl, rfl, rfl⟩⟩
  have hguard : ¬(r.length ≠ s.length ∧ s.length ≠ an.length) :=
    fun hc => hc.1 hr
  have hidx : ∀ i ∈ List.range r.length,
      i < r.length ∧ i < s.length ∧ i < an.length := by
    intro i hi
    have := List.mem_range.1 hi
    omega
  simp only [Epicycle.add_circles, if_neg hguard,
             addLoop_ok r s an e' (List.range r.length) hidx]
  obtain ⟨hc, htm⟩ := foldl_add_circle_range r s an e' (List.range r.length)
  rw [he't] at hc
  have hnil : (List.range r.length).map (fun i =>
      Circle.make (r.getD i 0) (s.getD i 0) (an.getD i 0) a.data) ≠ [] := by
    simp [List.range_eq_nil, List.length_eq_zero, hne]
  obtain ⟨c0, rest, hsplit⟩ := List.exists_cons_of_ne_nil hnil
  have hc0 : c0.local_x = [] := by
    have hmem : c0 ∈ (List.range r.length).map (fun i =>
        Circle.make (r.getD i 0) (s.getD i 0) (an.getD i 0) a.data) := by
      rw [hsplit]
      exact List.mem_cons_self _ _
    obtain ⟨i, hi, rfl⟩ := List.mem_map.1 hmem
    rfl
  unfold Epicycle.update_xy
  rw [htm, he't, hc, he'c, hsplit]
  simp only [zerosLike]
  rw [addPairs_append,
      addPairs_map a.data
        (fun c' τ => c'.radius * Real.cos (τ * c'.speed + c'.angle_i))
        (fun c' τ => c'.radius * Real.sin (τ * c'.speed + c'.angle_i))
        _ (fun _ => 0) (fun _ => 0) (updateCore_mem_local e.circles a.data)]
  have hmapnil : a.data.map (fun τ =>
      (0:ℝ) + ((e.circles.map fun c => Circle.updateCore c a.data).map
        (fun c' => c'.radius * Real.cos (τ * c'.speed + c'.angle_i))).sum) ≠ [] := by
    simp [List.map_eq_nil_iff, h2]
  simp only [addPairs, hc0, npAddInPlace_nil_error _ hmapnil]

/-- C5 witness: time domain [0] then `add_circles([1],[1],[0])` fails with
the broadcast error. -/
theorem add_circles_after_time_broadcast_witness :
    ∃ e', Epicycle.init.timeSet (.arr ⟨[1], [0]⟩) = .ok e' ∧
      e'.add_circles [1] [1] [0] = .error .broadcastError := by
  refine ⟨_, timeSet_ok Epicycle.init ⟨[1], [0]⟩ (by decide), ?_⟩
  exact (add_circles_after_time_broadcast Epicycle.init _ ⟨[1], [0]⟩
    (by decide) (by simp) [1] [1] [0] rfl rfl (by simp)
    (timeSet_ok Epicycle.init ⟨[1], [0]⟩ (by decide))).1

/-- C7: `update_arrays` on a rank-1 array of length N recomputes angles,
local_x and local_y by the spec formulas for all N samples and changes no
other field; any non-rank-1 input fails with InvalidArgument. -/
theorem update_arrays_spec (c : Circle) (a : NDArray) (h : a.shape.length = 1) :
    c.update_arrays (.arr a) =
      .ok { c with
        angles := a.data.map fun τ => τ * c.speed + c.angle_i,
        local_x := a.data.map fun τ => c.radius * Real.cos (τ * c.speed + c.angle_i),
        local_y := a.data.map fun τ => c.radius * Real.sin (τ * c.speed + c.angle_i) } ∧
    (∀ v : PyValue, v.isRank1 = false → c.update_arrays v = .error .invalidArgument) := by
  constructor
  · simp only [Circle.update_arrays, if_pos h, Circle.updateCore]
    simp only [Except.ok.injEq, Circle.mk.injEq, List.map_map]
    refine ⟨trivial, trivial, trivial, trivial, ?_, ?_⟩ <;> rfl
  · intro v hv
    cases v with
    | nonArray => rfl
    | arr a' =>
      have hne : ¬ a'.shape.length = 1 := by
        simpa [PyValue.isRank1] using hv
      simp [Circle.update_arrays, hne]

/-- C7 witness: updating with the empty rank-1 array leaves a fresh circle
unchanged; updating with a non-array fails with InvalidArgument. -/
theorem update_arrays_spec_witness :
    Circle.update_arrays (Circle.make 1 1 0 []) (.arr ⟨[0], []⟩) =
      .ok (Circle.make 1 1 0 []) ∧
    Circle.update_arrays (Circle.make 1 1 0 []) .nonArray
      = .error .invalidArgument := by
  obtain ⟨h1, h2⟩ := update_arrays_spec (Circle.make 1 1 0 []) ⟨[0], []⟩ (by decide)
  refine ⟨?_, h2 .nonArray rfl⟩
  rw [h1]
  rfl

/-- C8: reading `trajectory` twice, or `period` twice, with no intervening
mutation, returns identical results both times (cache correctness). -/
theorem cached_reads_idempotent (e : Epicycle) :
    e.trajectoryRead.2.trajectoryRead.1 = e.trajectoryRead.1 ∧
    (∀ p e', e.periodRead = .ok (p, e') → e'.periodRead = .ok (p, e')) := by
  constructor
  · unfold Epicycle.trajectoryRead
    split <;> rfl
  · intro p e' hok
    unfold Epicycle.periodRead at hok ⊢
    split at hok
    · cases hl : npLcmReduce e.speedsInt with
      | error err => rw [hl] at hok; cases hok
      | ok l =>
        rw [hl] at hok
        simp only [Except.ok.injEq, Prod.mk.injEq] at hok
        obtain ⟨hp, he'⟩ := hok
        subst hp
        subst he'
        rfl
    · next hflag =>
      simp only [Except.ok.injEq, Prod.mk.injEq] at hok
      obtain ⟨hp, he'⟩ := hok
      subst hp
      subst he'
      rw [if_neg hflag]

/-- C8 witness: one circle of speed 2; the first period read computes
2π/2 and caches it, and the second read returns the identical pair. -/
theorem cached_reads_idempotent_witness :
    (Epicycle.add_circle Epicycle.init 1 2 0).trajectoryRead.2.trajectoryRead.1
      = (Epicycle.add_circle Epicycle.init 1 2 0).trajectoryRead.1 ∧
    Epicycle.periodRead
      { circles := [Circle.make 1 2 0 []], time := [], x := [], y := [],
        period_changed := false, trajectory_changed := true,
        period := 2 * Real.pi / ((2:ℤ) : ℝ), trajectory := [] }
      = .ok (2 * Real.pi / ((2:ℤ) : ℝ),
        { circles := [Circle.make 1 2 0 []], time := [], x := [], y := [],
          period_changed := false, trajectory_changed := true,
          period := 2 * Real.pi / ((2:ℤ) : ℝ), trajectory := [] }) := by
  obtain ⟨t1, t2⟩ := cached_reads_idempotent (Epicycle.add_circle Epicycle.init 1 2 0)
  refine ⟨t1, t2 _ _ ?_⟩
  show Epicycle.periodRead _ = _
  simp only [Epicycle.periodRead, Epicycle.speedsInt, Epicycle.add_circle,
             Epicycle.init, Circle.make, npTrunc, npLcmReduce, lcmFold]
  norm_num

/-- C9 (code bug): assigning Circle.angles, Circle.local_x or
Circle.local_y raises ImmutableFieldWrite, but assigning
Epicycle.trajectory raises an arity TypeError — the setter is declared
without a value parameter, so its intended AttributeError is
unreachable. -/
theorem readonly_field_writes :
    Circle.set_angles (Circle.make 1 1 0 []) .nonArray
        = .error .immutableFieldWrite ∧
    Circle.set_local_x (Circle.make 1 1 0 []) .nonArray
        = .error .immutableFieldWrite ∧
    Circle.set_local_y (Circle.make 1 1 0 []) .nonArray
        = .error .immutableFieldWrite ∧
    Epicycle.trajectorySet Epicycle.init .nonArray = .error .typeError ∧
    Err.typeError ≠ Err.immutableFieldWrite := by
  exact ⟨rfl, rfl, rfl, rfl, by decide⟩

theorem addLoop_ok_cases (radius speed angle_i : List ℝ) (e : Epicycle)
    (idx : List Nat) (eL : Epicycle) :
    addLoop radius speed angle_i e idx = .ok eL →
    eL = e ∨ eL.period_changed = true := by
  induction idx generalizing e with
  | nil =>
    intro h
    injection h with h
    exact Or.inl h.symm
  | cons i rest ih =>
    intro h
    simp only [addLoop] at h
    cases hr : radius[i]? with
    | none => rw [hr] at h; exact Except.noConfusion h
    | some rv =>
      cases hs : speed[i]? with
      | none => rw [hr, hs] at h; exact Except.noConfusion h
      | some sv =>
        cases ha : angle_i[i]? with
        | none => rw [hr, hs, ha] at h; exact Except.noConfusion h
        | some av =>
          rw [hr, hs, ha] at h
          rcases ih (e.add_circle rv sv av) h with rfl | hflag
          · exact Or.inr rfl
          · exact Or.inr hflag

theorem npLcmReduce_eq_lcmVal (l : List ℤ) (hl : l ≠ []) :
    npLcmReduce l = .ok (lcmVal l) := by
  cases l with
  | nil => exact absurd rfl hl
  | cons h t => rfl

theorem speedsInt_map_updateCore (cs : List Circle) (t : List ℝ) :
    (cs.map fun c => Circle.updateCore c t).map (fun c => npTrunc c.speed)
      = cs.map fun c => npTrunc c.speed := by
  rw [List.map_map]
  rfl

theorem periodFormula_updateCore (cs : List Circle) (t : List ℝ) :
    periodFormula (cs.map fun c => Circle.updateCore c t) = periodFormula cs := by
  unfold periodFormula
  rw [speedsInt_map_updateCore]

theorem reachable_periodOK (e : Epicycle) (h : Reachable e) : periodOK e := by
  induction h with
  | init => intro hf; cases hf
  | add e r s a _ _ => intro hf; cases hf
  | adds e r s a e' hre hok ih =>
    unfold Epicycle.add_circles at hok
    split at hok
    · exact Except.noConfusion hok
    · cases hl : addLoop r s a e (List.range r.length) with
      | error err => rw [hl] at hok; exact Except.noConfusion hok
      | ok eL =>
        rw [hl] at hok
        obtain ⟨hcirc, hflag, hper, -⟩ := update_xy_fields eL e' hok
        rcases addLoop_ok_cases r s a e (List.range r.length) eL hl with rfl | hfl
        · intro hf
          rw [hflag] at hf
          obtain ⟨hne, hpf⟩ := ih hf
          rw [hcirc, hper]
          exact ⟨hne, hpf⟩
        · intro hf
          rw [hflag, hfl] at hf
          cases hf
  | setTime e v e' hre hok ih =>
    cases v with
    | nonArray => unfold Epicycle.timeSet at hok; exact Except.noConfusion hok
    | arr a =>
      by_cases hsh : a.shape.length = 1
      · rw [timeSet_ok e a hsh] at hok
        obtain rfl := (Except.ok.injEq _ _).mp hok
        intro hf
        have hf' : e.period_changed = false := hf
        obtain ⟨hne, hper⟩ := ih hf'
        constructor
        · show e.circles.map (fun c => Circle.updateCore c a.data) ≠ []
          simpa [List.map_eq_nil_iff] using hne
        · show e.period
            = periodFormula (e.circles.map fun c => Circle.updateCore c a.data)
          rw [hper, periodFormula_updateCore]
      · simp only [Epicycle.timeSet, if_neg hsh] at hok
        exact Except.noConfusion hok
  | readTraj e hre ih =>
    obtain ⟨h1, h2, h3⟩ := trajectoryRead_snd_fields e
    intro hf
    rw [h2] at hf
    obtain ⟨hne, hper⟩ := ih hf
    rw [h1, h3]
    exact ⟨hne, hper⟩
  | readPeriod e p e' hre hok ih =>
    unfold Epicycle.periodRead at hok
    split at hok
    · cases hl : npLcmReduce e.speedsInt with
      | error err => rw [hl] at hok; exact Except.noConfusion hok
      | ok l =>
        rw [hl] at hok
        simp only [Except.ok.injEq, Prod.mk.injEq] at hok
        obtain ⟨hp, rfl⟩ := hok
        intro _
        have hsne : e.speedsInt ≠ [] := by
          intro hnil
          rw [hnil] at hl
          exact Except.noConfusion hl
        have hcne : e.circles ≠ [] := by
          intro hnil
          exact hsne (by simp [Epicycle.speedsInt, hnil])
        refine ⟨hcne, ?_⟩
        rw [npLcmReduce_eq_lcmVal _ hsne] at hl
        have hl' := (Except.ok.injEq _ _).mp hl
        show 2 * Real.pi / (l : ℝ) = periodFormula e.circles
        rw [← hl']
        rfl
    · next hflag =>
      intro _
      have hf : e.period_changed = false := by
        revert hflag
        cases e.period_changed <;> simp
      obtain ⟨hne, hper⟩ := ih hf
      simp only [Except.ok.injEq, Prod.mk.injEq] at hok
      obtain ⟨hp, rfl⟩ := hok
      exact ⟨hne, hper⟩

/-- C6: for every reachable Epicycle with at least one circle, reading
`period` succeeds and returns 2π divided by the lcm-reduce of the
integer-truncated speeds of all circles. -/
theorem period_formula_of_reachable (e : Epicycle) (hR : Reachable e)
    (hne : e.circles ≠ []) :
    ∃ e', e.periodRead = .ok
      (2 * Real.pi / ((lcmVal (e.circles.map fun c => npTrunc c.speed) : ℤ) : ℝ),
       e') := by
  have hsne : e.speedsInt ≠ [] := by
    simpa [Epicycle.speedsInt, List.map_eq_nil_iff] using hne
  unfold Epicycle.periodRead
  split
  · rw [npLcmReduce_eq_lcmVal _ hsne]
    exact ⟨_, rfl⟩
  · next hflag =>
    have hf : e.period_changed = false := by
      revert hflag
      cases e.period_changed <;> simp
    obtain ⟨-, hper⟩ := reachable_periodOK e hR hf
    refine ⟨e, ?_⟩
    rw [hper]
    rfl

/-- C6 witness: circles with speeds 2 and 7 give period 2π / lcm(2,7)
= 2π/14. -/
theorem period_formula_of_reachable_witness :
    ∃ e', ((Epicycle.init.add_circle 1 2 0).add_circle 2 7 0).periodRead
      = .ok (2 * Real.pi / (14:ℝ), e') := by
  obtain ⟨e', h⟩ := period_formula_of_reachable
    ((Epicycle.init.add_circle 1 2 0).add_circle 2 7 0)
    (Reachable.add _ 2 7 0 (Reachable.add _ 1 2 0 Reachable.init))
    (by simp [Epicycle.add_circle, Epicycle.init])
  refine ⟨e', ?_⟩
  rw [h]
  norm_num [Epicycle.add_circle, Epicycle.init, Circle.make, npTrunc,
            lcmVal, lcmFold, Int.lcm]

/-- C10: reading `period` on a reachable Epicycle that owns no circles
fails with the empty-reduce error (np.lcm.reduce over an empty array has
no identity) rather than returning a numeric value. -/
theorem period_empty_error (e : Epicycle) (hR : Reachable e)
    (h : e.circles = []) :
    e.periodRead = .error .emptyReduce := by
  have hflag : e.period_changed = true := by
    by_contra hf
    have hf' : e.period_changed = false := by
      revert hf
      cases e.period_changed <;> simp
    exact (reachable_periodOK e hR hf').1 h
  unfold Epicycle.periodRead
  rw [if_pos (by rw [hflag])]
  have hs : e.speedsInt = [] := by simp [Epicycle.speedsInt, h]
  rw [hs]
  rfl

/-- C10 witness: a fresh Epicycle owns no circles and its period read
fails with the empty-reduce error. -/
theorem period_empty_error_witness :
    Epicycle.init.periodRead = .error .emptyReduce :=
  period_empty_error Epicycle.init Reachable.init rfl

end MagicCircle
